import Mathlib

/-!
Verification development for the BetSync prototype (src/app.py).

The source is a Python/pandas program.  Machine floats are embedded as
exact rationals (`ℚ`), and the float NaN used by the source as a
row-drop marker becomes `Option.none`.  The Python builtin `float(s)`
appears at two levels: a plain-decimal fragment (`pyFloat`) sufficient
for the dataset pipeline, and the complete grammar (`pyFloatFull`,
with underscore separators, exponents and the infinity/nan spellings)
over rationals extended with infinities and nan (`PyVal`), used for
the string-level analysis of the odds normalizer.
-/

/-- Numeric value of a list of decimal digit characters
(the usual left fold; `'0'.toNat = 48`). -/
def natOfDigits (cs : List Char) : ℕ :=
  cs.foldl (fun n c => 10 * n + (c.toNat - 48)) 0

/-- Embedding of Python `float` on an unsigned plain decimal literal:
an integer part, optionally followed by `.` and a fractional part,
with at least one digit overall (`"1."`, `".5"` and `"110"` parse,
`"."`, `""` and `"abc"` do not).  This is the plain-literal fragment
of the `float` grammar; the complete grammar (underscore separators,
exponents and the `inf`/`infinity`/`nan` spellings) is embedded below
by `parseUnsignedFull`/`pyFloatFull` and drives the string-level
normalizer analysis — the extra spellings only reach return paths the
dataset-level development already covers. -/
def parseUnsigned (cs : List Char) : Option ℚ :=
  match cs.dropWhile Char.isDigit with
  | [] =>
      if (cs.takeWhile Char.isDigit).isEmpty then none
      else some (natOfDigits (cs.takeWhile Char.isDigit))
  | c :: frac =>
      if c = '.' ∧ frac.all Char.isDigit ∧
          (¬ (cs.takeWhile Char.isDigit).isEmpty ∨ ¬ frac.isEmpty) then
        some ((natOfDigits (cs.takeWhile Char.isDigit) : ℚ) +
          (natOfDigits frac : ℚ) / 10 ^ frac.length)
      else none

/-- Embedding of Python `float(s)` on plain signed decimal literals:
an optional single leading sign, then an unsigned decimal literal.
See `pyFloatFull` below for the complete grammar. -/
def pyFloat (cs : List Char) : Option ℚ :=
  match cs with
  | [] => none
  | c :: t =>
      if c = '+' then parseUnsigned t
      else if c = '-' then (parseUnsigned t).map (fun q => -q)
      else parseUnsigned (c :: t)

/-- Embedding of Python `str.strip()`: remove leading and trailing
whitespace characters. -/
def strip (cs : List Char) : List Char :=
  ((cs.dropWhile Char.isWhitespace).reverse.dropWhile Char.isWhitespace).reverse

/-- Embedding of Python `s.startswith(c)` for a one-character pattern. -/
def startsWithChar (c : Char) : List Char → Bool
  | [] => false
  | d :: _ => d = c

/-- Embedding of `american_to_decimal` (src/app.py lines 20-49).
`none` stands for the `np.nan` the source returns on failure.  The
`+`-branch re-parses the tail `s[1:]` exactly as the source does. -/
def american_to_decimal (x : List Char) : Option ℚ :=
  let s := strip x
  match pyFloat s with
  | none => none
  | some v =>
      if 1.01 ≤ v ∧ v ≤ 100 then some v
      else if startsWithChar '+' s then
        match pyFloat (s.drop 1) with
        | none => none
        | some a => some (1 + a / 100)
      else if v < 0 then some (1 + 100 / |v|)
      else if 100 ≤ v then some (1 + v / 100)
      else none

/-- Embedding of `american_or_decimal` (src/app.py lines 51-60).
A stripped string starting with `-` is parsed directly with the
negative-American formula; a parsed value of `0` (input `"-0"`) makes
the source raise `ZeroDivisionError` inside the `try`, caught by the
bare `except`, hence `none`. -/
def american_or_decimal (x : List Char) : Option ℚ :=
  let s := strip x
  if startsWithChar '-' s then
    match pyFloat s with
    | none => none
    | some a => if a = 0 then none else some (1 + 100 / |a|)
  else american_to_decimal s

/-- The OddsNormalizer contract of the spec, on strings. -/
def normalizeOdds (s : String) : Option ℚ :=
  american_or_decimal s.data

/-- A value of a CSV cell after `pd.read_csv`: a missing cell becomes
NaN (`missing`), a numeric cell a number, any other cell the original
text (`read_csv` never coerces unparseable text to NaN). -/
inductive CsvCell where
  | missing : CsvCell
  | num : ℚ → CsvCell
  | str : String → CsvCell
deriving DecidableEq

/-- One row of the uploaded table (spec WagerRecord).  The odds columns
are kept as the text `str(x)` the source feeds to the normalizers; the
two timestamp columns are represented by the result of the external
`dateutil` parse (`parse_dt`, src/app.py lines 62-66): `some t` is a
parsed timestamp in epoch seconds, `none` is `pd.NaT`. -/
structure WagerRecord where
  book : Option String
  sport : Option String
  marketType : Option String
  oddsPlaced : String
  closingOdds : String
  stake : CsvCell
  betTime : Option ℚ
  eventTime : Option ℚ
  result : Option String
deriving DecidableEq

/-- Derived row of the cleaned frame (spec CleanedRecord). -/
structure CleanedRecord where
  book : Option String
  sport : Option String
  marketType : Option String
  stake : CsvCell
  betTime : ℚ
  eventTime : ℚ
  oddsPlacedDec : ℚ
  closingOddsDec : ℚ
  leadHours : ℚ
  clvPercent : ℚ
deriving DecidableEq

/-- `LeadHours` derivation (src/app.py line 105): difference of the two
parsed timestamps in seconds divided by 3600; NaT on either side makes
the difference NaT and `total_seconds` NaN. -/
def leadHoursOf (b e : Option ℚ) : Option ℚ :=
  match b, e with
  | some b, some e => some ((e - b) / 3600)
  | _, _ => none

/-- Row cleaning (src/app.py lines 101-108): derive the decimal odds,
`LeadHours` and `CLV_pct` columns, then `dropna` on
`OddsPlaced_dec, ClosingOdds_dec, Stake, LeadHours, CLV_pct`.
`dropna` removes a row exactly when one of those cells is NaN; a
non-numeric stake string is not NaN and is NOT removed. -/
def cleanRecord (r : WagerRecord) : Option CleanedRecord :=
  match american_or_decimal r.oddsPlaced.data,
      american_or_decimal r.closingOdds.data,
      r.betTime, r.eventTime, r.stake with
  | _, _, _, _, CsvCell.missing => none
  | some o, some c, some b, some e, st =>
      some { book := r.book, sport := r.sport, marketType := r.marketType,
             stake := st, betTime := b, eventTime := e,
             oddsPlacedDec := o, closingOddsDec := c,
             leadHours := (e - b) / 3600,
             clvPercent := (c - o) / o * 100 }
  | _, _, _, _, _ => none

/-- The RecordCleaner contract: keep exactly the rows `dropna` keeps. -/
def clean (rs : List WagerRecord) : List CleanedRecord :=
  rs.filterMap cleanRecord

/-- The two terminal errors of the pipeline (src/app.py lines 97-99 and
109-111). -/
inductive PipeError where
  | missingColumns : List String → PipeError
  | noValidRows : PipeError
deriving DecidableEq

/-- Required columns (src/app.py line 95). -/
def requiredCols : List String :=
  ["Book", "Sport", "MarketType", "OddsPlaced", "ClosingOdds", "Stake",
   "BetTime", "EventTime"]

/-- The load-and-clean stage (src/app.py lines 93-111): report missing
required columns, otherwise clean, and halt on an empty cleaned frame. -/
def pipeline (cols : List String) (rows : List WagerRecord) :
    Except PipeError (List CleanedRecord) :=
  let missing := requiredCols.filter (fun c => ¬ cols.contains c)
  if missing ≠ [] then Except.error (PipeError.missingColumns missing)
  else
    let cleaned := clean rows
    if cleaned = [] then Except.error PipeError.noValidRows
    else Except.ok cleaned

/-- Herfindahl index of a categorical column (src/app.py lines 68-71):
`value_counts(dropna=False)` counts every distinct value, missing
values included, and the squared shares are summed.  `l.dedup` lists
the distinct values, `l.count v` their multiplicities. -/
def herfindahl {α : Type} [DecidableEq α] (l : List α) : ℚ :=
  let counts := l.dedup.map (fun v => (l.count v : ℚ))
  (counts.map (fun c => (c / counts.sum) ^ 2)).sum

/-- src/app.py lines 73-74. -/
def clamp01 (v : ℚ) : ℚ :=
  max 0 (min 1 v)

/-- Aggregate statistics of the cleaned dataset (spec AggregateMetrics,
src/app.py lines 114-120). -/
structure AggregateMetrics where
  avgCLV : ℚ
  posCLVRate : ℚ
  stakeCV : ℚ
  marketHHI : ℚ
  bookHHI : ℚ
  leadMean : ℚ
  leadStd : ℚ
deriving DecidableEq

/-- src/app.py line 123. -/
def clv_risk (m : AggregateMetrics) : ℚ :=
  clamp01 ((m.avgCLV - 1.0) / 4.0)

/-- src/app.py line 124. -/
def posclv_risk (m : AggregateMetrics) : ℚ :=
  clamp01 ((m.posCLVRate - 0.55) / 0.25)

/-- src/app.py line 125. -/
def stake_risk (m : AggregateMetrics) : ℚ :=
  clamp01 ((12.0 - min m.stakeCV 30.0) / 12.0)

/-- src/app.py line 126. -/
def market_risk (m : AggregateMetrics) : ℚ :=
  clamp01 ((m.marketHHI - 0.20) / 0.60)

/-- src/app.py line 127. -/
def book_risk (m : AggregateMetrics) : ℚ :=
  clamp01 ((m.bookHHI - 0.25) / 0.60)

/-- src/app.py line 128. -/
def lead_mean_risk (m : AggregateMetrics) : ℚ :=
  clamp01 ((m.leadMean - 12.0) / 48.0)

/-- src/app.py line 129. -/
def lead_std_risk (m : AggregateMetrics) : ℚ :=
  clamp01 ((6.0 - min m.leadStd 24.0) / 6.0)

/-- Weighted composite on the 0..1 scale (src/app.py lines 131-143). -/
def risk_01 (m : AggregateMetrics) : ℚ :=
  0.28 * clv_risk m + 0.12 * posclv_risk m + 0.16 * stake_risk m +
  0.14 * market_risk m + 0.10 * book_risk m +
  0.10 * lead_mean_risk m + 0.10 * lead_std_risk m

/-- Embedding of Python `round` to an integer: round half to even. -/
def roundHalfEven (q : ℚ) : ℤ :=
  if q - ⌊q⌋ < 1 / 2 then ⌊q⌋
  else if 1 / 2 < q - ⌊q⌋ then ⌊q⌋ + 1
  else if ⌊q⌋ % 2 = 0 then ⌊q⌋ else ⌊q⌋ + 1

/-- Embedding of Python `round(x, 1)`. -/
def round1 (q : ℚ) : ℚ :=
  (roundHalfEven (10 * q) : ℚ) / 10

/-- Composite limit-risk score (src/app.py line 144). -/
def risk_score (m : AggregateMetrics) : ℚ :=
  round1 (100.0 * risk_01 m)

/-- The seven normalized sub-risks consumed by the recommendation block
(spec RiskProfile). -/
structure RiskProfile where
  clv : ℚ
  posclv : ℚ
  stake : ℚ
  market : ℚ
  book : ℚ
  leadMean : ℚ
  leadStd : ℚ
deriving DecidableEq

/-- The list built by the `recs` block (src/app.py lines 196-210): one
fixed advisory per sub-risk strictly above 0.6, appended in the fixed
source order. -/
def recs (p : RiskProfile) : List String :=
  (if 0.6 < p.clv then
    ["High positive CLV: mix in later bets or smaller edges to look less sharp."]
  else []) ++
  (if 0.6 < p.posclv then
    ["Large share beating the close: add some neutral/coin-flip markets."]
  else []) ++
  (if 0.6 < p.stake then
    ["Stake sizes too consistent: vary stakes ±10–25% around your base."]
  else []) ++
  (if 0.6 < p.market then
    ["Market concentration high: add 2–3 different markets or sports weekly."]
  else []) ++
  (if 0.6 < p.book then
    ["Book concentration high: spread action across additional legal books."]
  else []) ++
  (if 0.6 < p.leadMean then
    ["You bet very early on average: add some closer-to-start bets."]
  else []) ++
  (if 0.6 < p.leadStd then
    ["Bet timing is very consistent: randomize time-of-day you place bets."]
  else [])

/-- The neutral message shown when no sub-risk exceeds the threshold
(src/app.py line 213). -/
def neutralMsg : String :=
  "Profile looks reasonably recreational. Keep rotating markets, stakes, and timing."

/-- The displayed recommendation output (src/app.py lines 212-216):
the advisory list, or the single neutral message when it is empty. -/
def recommendations (p : RiskProfile) : List String :=
  if recs p = [] then [neutralMsg] else recs p

/-- Embedding of `american_or_decimal` applied to an already-numeric
input, as in the second application of normalize(normalize(x)): the
source first converts the float back to text with `str`.  For a float
v, `str(v)` starts with `-` exactly when v is negative, never starts
with `+`, and `float(str(v))` parses back to v, so the source branch
structure collapses to this function of the value itself. -/
def normalizeVal (v : ℚ) : Option ℚ :=
  if v < 0 then some (1 + 100 / |v|)
  else if 1.01 ≤ v ∧ v ≤ 100 then some v
  else if 100 ≤ v then some (1 + v / 100)
  else none

/-- A concrete upload row with American odds on both sides. -/
def sampleRow1 : WagerRecord :=
  { book := some ("Bet99"), sport := some ("NBA"), marketType := some ("PlayerPoints"),
    oddsPlaced := "+110", closingOdds := "+120", stake := CsvCell.num 50,
    betTime := some 0, eventTime := some 23400, result := some ("W") }

/-- The cleaned row produced from `sampleRow1`. -/
def sampleCleaned1 : CleanedRecord :=
  { book := some ("Bet99"), sport := some ("NBA"), marketType := some ("PlayerPoints"),
    stake := CsvCell.num 50, betTime := 0, eventTime := 23400,
    oddsPlacedDec := 21 / 10, closingOddsDec := 11 / 5,
    leadHours := 13 / 2, clvPercent := 100 / 21 }

/-- A concrete upload row with negative American odds on both sides. -/
def sampleRow2 : WagerRecord :=
  { book := some ("Bet99"), sport := some ("NHL"), marketType := some ("Moneyline"),
    oddsPlaced := "-120", closingOdds := "-115", stake := CsvCell.num 55,
    betTime := some 0, eventTime := some 3600, result := some ("L") }

/-- The cleaned row produced from `sampleRow2`. -/
def sampleCleaned2 : CleanedRecord :=
  { book := some ("Bet99"), sport := some ("NHL"), marketType := some ("Moneyline"),
    stake := CsvCell.num 55, betTime := 0, eventTime := 3600,
    oddsPlacedDec := 11 / 6, closingOddsDec := 43 / 23,
    leadHours := 1, clvPercent := 500 / 253 }

/-- A concrete upload row whose OddsPlaced text is "+0", which
normalizes to exactly 1.0. -/
def oddsZeroRow : WagerRecord :=
  { book := some ("Bet99"), sport := some ("NBA"), marketType := some ("PlayerPoints"),
    oddsPlaced := "+0", closingOdds := "2.05", stake := CsvCell.num 50,
    betTime := some 0, eventTime := some 3600, result := some ("W") }

/-- The cleaned row produced from `oddsZeroRow`: its odds-placed
decimal is exactly 1. -/
def oddsZeroCleaned : CleanedRecord :=
  { book := some ("Bet99"), sport := some ("NBA"), marketType := some ("PlayerPoints"),
    stake := CsvCell.num 50, betTime := 0, eventTime := 3600,
    oddsPlacedDec := 1, closingOddsDec := 41 / 20,
    leadHours := 1, clvPercent := 105 }

/-- A concrete upload row whose Stake cell is the non-numeric text
"abc"; every other field is valid. -/
def stakeAbcRow : WagerRecord :=
  { book := some ("Bet365"), sport := some ("NFL"), marketType := some ("Totals"),
    oddsPlaced := "+110", closingOdds := "+120", stake := CsvCell.str ("abc"),
    betTime := some 0, eventTime := some 3600, result := some ("L") }

/-- The cleaned row produced from `stakeAbcRow`: its stake is still
the text "abc". -/
def stakeAbcCleaned : CleanedRecord :=
  { book := some ("Bet365"), sport := some ("NFL"), marketType := some ("Totals"),
    stake := CsvCell.str ("abc"), betTime := 0, eventTime := 3600,
    oddsPlacedDec := 21 / 10, closingOddsDec := 11 / 5,
    leadHours := 1, clvPercent := 100 / 21 }

/-- A concrete upload row whose OddsPlaced is unparseable text. -/
def badOddsRow : WagerRecord :=
  { book := some ("Bet99"), sport := some ("NBA"), marketType := some ("PlayerPoints"),
    oddsPlaced := "abc", closingOdds := "2.05", stake := CsvCell.num 50,
    betTime := some 0, eventTime := some 3600, result := none }

/-- An aggregate-metrics vector at which every sub-risk saturates. -/
def metricsSample : AggregateMetrics :=
  { avgCLV := 5, posCLVRate := 4 / 5, stakeCV := 0, marketHHI := 1,
    bookHHI := 1, leadMean := 60, leadStd := 0 }

/-- A profile with every sub-risk zero. -/
def profileZero : RiskProfile :=
  { clv := 0, posclv := 0, stake := 0, market := 0, book := 0,
    leadMean := 0, leadStd := 0 }

/-- A dataset with N distinct categories (the numbers 0..N-1), each
holding exactly k records. -/
def eqSplit (N k : ℕ) : List ℕ :=
  (List.range N).flatMap (fun i => List.replicate k i)

/-- A Python float value: an exact rational extended with the two
infinities and nan.  Parsed finite literals are kept exact (the binary
rounding and overflow of machine floats are outside the rational
abstraction used throughout this development); infinities and nan
enter through the `inf`/`infinity`/`nan` spellings of `float()` and
propagate through the arithmetic below. -/
inductive PyVal where
  | finite : ℚ → PyVal
  | inf : PyVal
  | neginf : PyVal
  | nan : PyVal
deriving DecidableEq

/-- Negation of a float value (the leading `-` sign of `float(s)`). -/
def PyVal.neg : PyVal → PyVal
  | PyVal.finite q => PyVal.finite (-q)
  | PyVal.inf => PyVal.neginf
  | PyVal.neginf => PyVal.inf
  | PyVal.nan => PyVal.nan

/-- Python `abs` on float values. -/
def PyVal.abs : PyVal → PyVal
  | PyVal.finite q => PyVal.finite |q|
  | PyVal.nan => PyVal.nan
  | _ => PyVal.inf

/-- Float `<=`: any comparison with nan is false. -/
def PyVal.le : PyVal → PyVal → Bool
  | PyVal.finite a, PyVal.finite b => decide (a ≤ b)
  | PyVal.finite _, PyVal.inf => true
  | PyVal.neginf, PyVal.nan => false
  | PyVal.neginf, _ => true
  | PyVal.inf, PyVal.inf => true
  | _, _ => false

/-- Float `<`: any comparison with nan is false. -/
def PyVal.lt : PyVal → PyVal → Bool
  | PyVal.finite a, PyVal.finite b => decide (a < b)
  | PyVal.finite _, PyVal.inf => true
  | PyVal.neginf, PyVal.finite _ => true
  | PyVal.neginf, PyVal.inf => true
  | _, _ => false

/-- Float addition: nan is absorbing and opposite infinities give nan. -/
def PyVal.add : PyVal → PyVal → PyVal
  | PyVal.nan, _ => PyVal.nan
  | _, PyVal.nan => PyVal.nan
  | PyVal.inf, PyVal.neginf => PyVal.nan
  | PyVal.neginf, PyVal.inf => PyVal.nan
  | PyVal.inf, _ => PyVal.inf
  | _, PyVal.inf => PyVal.inf
  | PyVal.neginf, _ => PyVal.neginf
  | _, PyVal.neginf => PyVal.neginf
  | PyVal.finite a, PyVal.finite b => PyVal.finite (a + b)

/-- Float division by a positive rational constant (the `/100.0` of
the source): it preserves infinities and nan. -/
def PyVal.divByPos : PyVal → ℚ → PyVal
  | PyVal.finite q, c => PyVal.finite (q / c)
  | x, _ => x

/-- The source expression `100.0 / b` for an absolute value `b`:
finite for finite nonzero `b` (a zero `b` raises `ZeroDivisionError`,
handled at the call sites), `0.0` for an infinite `b`, nan for nan. -/
def PyVal.hundredDiv : PyVal → PyVal
  | PyVal.finite q => PyVal.finite (100 / q)
  | PyVal.nan => PyVal.nan
  | _ => PyVal.finite 0

/-- Tail of a digitpart of the Python float grammar, after a leading
digit: further digits with single underscore separators strictly
between digits (PEP 515). -/
def digitPartTail : List Char → Bool
  | [] => true
  | ['_'] => false
  | '_' :: c :: rest => c.isDigit && digitPartTail rest
  | c :: rest => c.isDigit && digitPartTail rest

/-- A digitpart of the Python float grammar: "10", "1_0"; not "",
"_1", "1_" or "1__0". -/
def isDigitPart : List Char → Bool
  | [] => false
  | c :: rest => c.isDigit && digitPartTail rest

/-- The digits of a digitpart with its underscore separators removed. -/
def digitsOf (cs : List Char) : List Char :=
  cs.filter (fun c => c != '_')

/-- Split a character list at the first occurrence of a character. -/
def splitAtChar (t : Char) : List Char → Option (List Char × List Char)
  | [] => none
  | c :: rest =>
      if c = t then some ([], rest)
      else
        match splitAtChar t rest with
        | none => none
        | some (a, b) => some (c :: a, b)

/-- Split a character list at the first `e` or `E`. -/
def splitAtExpChar : List Char → Option (List Char × List Char)
  | [] => none
  | c :: rest =>
      if c = 'e' ∨ c = 'E' then some ([], rest)
      else
        match splitAtExpChar rest with
        | none => none
        | some (a, b) => some (c :: a, b)

/-- The mantissa of a finite float literal:
`digitpart ["." [digitpart]]` or `"." digitpart`, evaluated exactly. -/
def parseMantissa (cs : List Char) : Option ℚ :=
  match splitAtChar '.' cs with
  | none =>
      if isDigitPart cs then some (natOfDigits (digitsOf cs)) else none
  | some (ip, fp) =>
      if (isDigitPart ip ∨ ip = []) ∧ (isDigitPart fp ∨ fp = []) ∧
          ¬ (ip = [] ∧ fp = []) then
        some ((natOfDigits (digitsOf ip) : ℚ) +
          (natOfDigits (digitsOf fp) : ℚ) / 10 ^ (digitsOf fp).length)
      else none

/-- The exponent of a float literal: an optionally signed digitpart. -/
def parseExp (cs : List Char) : Option ℤ :=
  match cs with
  | '+' :: rest =>
      if isDigitPart rest then some ((natOfDigits (digitsOf rest) : ℤ)) else none
  | '-' :: rest =>
      if isDigitPart rest then some (-(natOfDigits (digitsOf rest) : ℤ)) else none
  | _ =>
      if isDigitPart cs then some ((natOfDigits (digitsOf cs) : ℤ)) else none

/-- An unsigned finite float literal: a mantissa with an optional
`e`/`E` exponent, evaluated exactly as a rational. -/
def parseFinite (cs : List Char) : Option ℚ :=
  match splitAtExpChar cs with
  | none => parseMantissa cs
  | some (m, e) =>
      match parseMantissa m, parseExp e with
      | some q, some z =>
          some (if 0 ≤ z then q * 10 ^ z.toNat else q / 10 ^ (-z).toNat)
      | _, _ => none

/-- Python `float` on an unsigned token: the case-insensitive
`inf`/`infinity`/`nan` spellings, or a finite literal. -/
def parseUnsignedFull (cs : List Char) : Option PyVal :=
  let low := cs.map Char.toLower
  if low = ['i', 'n', 'f'] ∨ low = ['i', 'n', 'f', 'i', 'n', 'i', 't', 'y'] then
    some PyVal.inf
  else if low = ['n', 'a', 'n'] then some PyVal.nan
  else (parseFinite cs).map PyVal.finite

/-- Complete embedding of Python `float(s)`: an optional single
leading sign, then an unsigned token.  `pyFloat` above is the
plain-decimal fragment of this grammar. -/
def pyFloatFull (cs : List Char) : Option PyVal :=
  match cs with
  | [] => none
  | c :: t =>
      if c = '+' then parseUnsignedFull t
      else if c = '-' then (parseUnsignedFull t).map PyVal.neg
      else parseUnsignedFull (c :: t)

/-- Embedding of `american_to_decimal` (src/app.py lines 20-49) over
the complete `float` grammar and float-value domain.  `PyVal.nan`
stands for the `np.nan` the source returns on failure; the chained
comparison `1.01 <= v <= 100.0` is the conjunction of two float
comparisons, and the `+`-branch re-parses `s[1:]` as the source does. -/
def american_to_decimal_full (x : List Char) : PyVal :=
  let s := strip x
  match pyFloatFull s with
  | none => PyVal.nan
  | some v =>
      if PyVal.le (PyVal.finite 1.01) v && PyVal.le v (PyVal.finite 100) then v
      else if startsWithChar '+' s then
        match pyFloatFull (s.drop 1) with
        | none => PyVal.nan
        | some a => PyVal.add (PyVal.finite 1) (PyVal.divByPos a 100)
      else if PyVal.lt v (PyVal.finite 0) then
        PyVal.add (PyVal.finite 1) (PyVal.hundredDiv v.abs)
      else if PyVal.le (PyVal.finite 100) v then
        PyVal.add (PyVal.finite 1) (PyVal.divByPos v 100)
      else PyVal.nan

/-- Embedding of `american_or_decimal` (src/app.py lines 51-60) over
the complete `float` grammar.  A stripped string starting with `-` is
parsed directly with the negative-American formula; `100.0/abs(a)`
raises `ZeroDivisionError` exactly when `abs(a)` is zero, and the bare
`except` turns that into `np.nan`. -/
def american_or_decimal_full (x : List Char) : PyVal :=
  let s := strip x
  if startsWithChar '-' s then
    match pyFloatFull s with
    | none => PyVal.nan
    | some a =>
        if a.abs = PyVal.finite 0 then PyVal.nan
        else PyVal.add (PyVal.finite 1) (PyVal.hundredDiv a.abs)
  else american_to_decimal_full s

/-- The OddsNormalizer contract on strings, over the complete
`float()` grammar. -/
def normalizeOddsFull (s : String) : PyVal :=
  american_or_decimal_full s.data

theorem strip_def (cs : List Char) :
    strip cs = List.rdropWhile Char.isWhitespace (cs.dropWhile Char.isWhitespace) :=
  rfl

theorem strip_idem (cs : List Char) : strip (strip cs) = strip cs := by
  have hpre : strip cs <+: List.dropWhile Char.isWhitespace cs := by
    rw [strip_def]; exact List.rdropWhile_prefix _ _
  have h1 : List.dropWhile Char.isWhitespace (strip cs) = strip cs := by
    rw [List.dropWhile_eq_self_iff]
    intro hl
    have hlen : 0 < (List.dropWhile Char.isWhitespace cs).length :=
      lt_of_lt_of_le hl hpre.length_le
    have hnot := List.dropWhile_get_zero_not Char.isWhitespace cs hlen
    have hg : (strip cs).get ⟨0, hl⟩ =
        (List.dropWhile Char.isWhitespace cs).get ⟨0, hlen⟩ := by
      simpa [List.get_eq_getElem] using hpre.getElem (by omega)
    rw [hg]; exact hnot
  calc strip (strip cs)
      = List.rdropWhile Char.isWhitespace
          (List.dropWhile Char.isWhitespace (strip cs)) := strip_def _
    _ = List.rdropWhile Char.isWhitespace (strip cs) := by rw [h1]
    _ = strip cs := by rw [strip_def cs]; exact List.rdropWhile_idempotent _ _

theorem parseUnsigned_nonneg {cs : List Char} {v : ℚ}
    (h : parseUnsigned cs = some v) : 0 ≤ v := by
  unfold parseUnsigned at h
  split at h <;> split at h <;>
    first
      | (have hv := Option.some.inj h; rw [← hv]; positivity)
      | exact absurd h (by simp)

theorem parseUnsigned_sign_none {c : Char} (t : List Char)
    (h : c = '+' ∨ c = '-') : parseUnsigned (c :: t) = none := by
  have hdig : Char.isDigit c = false := by rcases h with h | h <;> simp [h]
  have hdot : ¬ c = '.' := by rcases h with h | h <;> simp [h]
  unfold parseUnsigned
  rw [List.dropWhile_cons, hdig]
  simp [hdot]

theorem pyFloat_of_parseUnsigned {cs : List Char} {v : ℚ}
    (h : parseUnsigned cs = some v) : pyFloat cs = some v := by
  match cs with
  | [] => exact absurd h (by simp [parseUnsigned])
  | c :: t =>
    by_cases hp : c = '+'
    · rw [hp] at h
      rw [parseUnsigned_sign_none t (Or.inl rfl)] at h
      exact absurd h (by simp)
    · by_cases hm : c = '-'
      · rw [hm] at h
        rw [parseUnsigned_sign_none t (Or.inr rfl)] at h
        exact absurd h (by simp)
      · simpa [pyFloat, hp, hm] using h

theorem pyFloat_nonpos_of_minus {t : List Char} {v : ℚ}
    (h : pyFloat ('-' :: t) = some v) : v ≤ 0 := by
  have hne : ¬ ('-' : Char) = '+' := by simp
  rw [pyFloat, if_neg hne, if_pos rfl] at h
  rcases hu : parseUnsigned t with _ | u <;> rw [hu] at h
  · exact absurd h (by simp)
  · have hv : -u = v := by simpa using h
    have := parseUnsigned_nonneg hu
    rw [← hv]; linarith

theorem pyFloat_nonneg_of_not_minus {cs : List Char} {v : ℚ}
    (hm : startsWithChar '-' cs = false) (h : pyFloat cs = some v) : 0 ≤ v := by
  match cs with
  | [] => exact absurd h (by simp [pyFloat])
  | c :: t =>
    have hcm : ¬ c = '-' := by simpa [startsWithChar] using hm
    by_cases hp : c = '+'
    · rw [hp] at h
      rw [pyFloat, if_pos rfl] at h
      exact parseUnsigned_nonneg h
    · rw [pyFloat, if_neg hp, if_neg hcm] at h
      exact parseUnsigned_nonneg h

theorem startsWithChar_true {c : Char} {l : List Char}
    (h : startsWithChar c l = true) : ∃ t, l = c :: t := by
  match l with
  | [] => exact absurd h (by simp [startsWithChar])
  | d :: t =>
    have : d = c := by simpa [startsWithChar] using h
    exact ⟨t, by rw [this]⟩

theorem aod_minus_some {x : List Char} {a : ℚ}
    (hm : startsWithChar '-' (strip x) = true)
    (hp : pyFloat (strip x) = some a) (ha : a ≠ 0) :
    american_or_decimal x = some (1 + 100 / |a|) := by
  simp only [american_or_decimal]
  rw [hm, if_pos rfl, hp]
  simp [ha]

theorem aod_minus_none {x : List Char}
    (hm : startsWithChar '-' (strip x) = true)
    (hp : pyFloat (strip x) = none) :
    american_or_decimal x = none := by
  simp only [american_or_decimal]
  rw [hm, if_pos rfl, hp]

theorem aod_not_minus {x : List Char}
    (hm : startsWithChar '-' (strip x) = false) :
    american_or_decimal x = american_to_decimal (strip x) := by
  simp only [american_or_decimal]
  rw [hm]
  simp

theorem a2d_parse_none {x : List Char}
    (hp : pyFloat (strip x) = none) :
    american_to_decimal x = none := by
  simp only [american_to_decimal]
  rw [hp]

theorem a2d_decimal {x : List Char} {v : ℚ}
    (hp : pyFloat (strip x) = some v) (h1 : 1.01 ≤ v) (h2 : v ≤ 100) :
    american_to_decimal x = some v := by
  simp only [american_to_decimal]
  rw [hp]
  simp [h1, h2]

theorem a2d_plus {x : List Char} {v : ℚ}
    (hp : pyFloat (strip x) = some v) (hno : ¬ (1.01 ≤ v ∧ v ≤ 100))
    (hplus : startsWithChar '+' (strip x) = true) :
    american_to_decimal x = some (1 + v / 100) := by
  obtain ⟨t, ht⟩ := startsWithChar_true hplus
  have hpu : parseUnsigned t = some v := by
    rw [ht] at hp
    rw [pyFloat, if_pos rfl] at hp
    exact hp
  have hdrop : pyFloat ((strip x).drop 1) = some v := by
    rw [ht]
    exact pyFloat_of_parseUnsigned hpu
  simp only [american_to_decimal, hp, hdrop]
  rw [if_neg hno, if_pos hplus]

theorem a2d_neg {x : List Char} {v : ℚ}
    (hp : pyFloat (strip x) = some v) (hno : ¬ (1.01 ≤ v ∧ v ≤ 100))
    (hplus : startsWithChar '+' (strip x) = false) (hv : v < 0) :
    american_to_decimal x = some (1 + 100 / |v|) := by
  simp only [american_to_decimal, hp]
  rw [if_neg hno, hplus]
  simp [hv]

theorem a2d_large {x : List Char} {v : ℚ}
    (hp : pyFloat (strip x) = some v) (hno : ¬ (1.01 ≤ v ∧ v ≤ 100))
    (hplus : startsWithChar '+' (strip x) = false)
    (hneg : ¬ v < 0) (h100 : 100 ≤ v) :
    american_to_decimal x = some (1 + v / 100) := by
  simp only [american_to_decimal, hp]
  rw [if_neg hno, hplus]
  simp [hneg, h100]

theorem a2d_invalid {x : List Char} {v : ℚ}
    (hp : pyFloat (strip x) = some v) (hno : ¬ (1.01 ≤ v ∧ v ≤ 100))
    (hplus : startsWithChar '+' (strip x) = false)
    (hneg : ¬ v < 0) (h100 : ¬ 100 ≤ v) :
    american_to_decimal x = none := by
  simp only [american_to_decimal, hp]
  rw [if_neg hno, hplus]
  simp [hneg, h100]

theorem a2d_ge_one {x : List Char} {v : ℚ}
    (h : american_to_decimal x = some v) : 1 ≤ v := by
  rcases hp : pyFloat (strip x) with _ | w
  · rw [a2d_parse_none hp] at h
    exact absurd h (by simp)
  · by_cases hdec : (1.01 : ℚ) ≤ w ∧ w ≤ 100
    · rw [a2d_decimal hp hdec.1 hdec.2] at h
      have := Option.some.inj h
      rw [← this]; linarith [hdec.1]
    · by_cases hplus : startsWithChar '+' (strip x) = true
      · rw [a2d_plus hp hdec hplus] at h
        obtain ⟨t, ht⟩ := startsWithChar_true hplus
        have hnn : 0 ≤ w := by
          rw [ht] at hp
          rw [pyFloat, if_pos rfl] at hp
          exact parseUnsigned_nonneg hp
        have := Option.some.inj h
        rw [← this]
        have : 0 ≤ w / 100 := by positivity
        linarith
      · have hplus' : startsWithChar '+' (strip x) = false := by
          simpa using hplus
        by_cases hneg : w < 0
        · rw [a2d_neg hp hdec hplus' hneg] at h
          have := Option.some.inj h
          rw [← this]
          have habs : (0 : ℚ) < |w| := abs_pos.mpr (by linarith)
          have : 0 ≤ 100 / |w| := by positivity
          linarith
        · by_cases h100 : (100 : ℚ) ≤ w
          · rw [a2d_large hp hdec hplus' hneg h100] at h
            have := Option.some.inj h
            rw [← this]
            have : (0 : ℚ) ≤ w / 100 := by positivity
            linarith
          · rw [a2d_invalid hp hdec hplus' hneg h100] at h
            exact absurd h (by simp)

theorem normalize_ge_one {x : List Char} {v : ℚ}
    (h : american_or_decimal x = some v) : 1 ≤ v := by
  by_cases hm : startsWithChar '-' (strip x) = true
  · rcases hp : pyFloat (strip x) with _ | a
    · rw [aod_minus_none hm hp] at h
      exact absurd h (by simp)
    · by_cases ha : a = 0
      · simp only [american_or_decimal] at h
        rw [hm, if_pos rfl, hp] at h
        simp [ha] at h
      · rw [aod_minus_some hm hp ha] at h
        have := Option.some.inj h
        rw [← this]
        have habs : (0 : ℚ) < |a| := abs_pos.mpr ha
        have : 0 ≤ 100 / |a| := by positivity
        linarith
  · have hm' : startsWithChar '-' (strip x) = false := by simpa using hm
    rw [aod_not_minus hm'] at h
    rw [← strip_idem x] at h
    exact a2d_ge_one h

theorem splitAtChar_cons_ne {t c : Char} (rest : List Char) (h : ¬ c = t) :
    splitAtChar t (c :: rest) =
      match splitAtChar t rest with
      | none => none
      | some (a, b) => some (c :: a, b) := by
  simp [splitAtChar, h]

theorem splitAtExpChar_cons_ne {c : Char} (rest : List Char)
    (h : ¬ (c = 'e' ∨ c = 'E')) :
    splitAtExpChar (c :: rest) =
      match splitAtExpChar rest with
      | none => none
      | some (a, b) => some (c :: a, b) := by
  simp [splitAtExpChar, h]

theorem parseMantissa_sign_none {c : Char} (t : List Char)
    (h : c = '+' ∨ c = '-') : parseMantissa (c :: t) = none := by
  have hdot : ¬ c = '.' := by rcases h with h | h <;> simp [h]
  have hdig : c.isDigit = false := by rcases h with h | h <;> simp [h]
  unfold parseMantissa
  rw [splitAtChar_cons_ne t hdot]
  cases hs : splitAtChar '.' t with
  | none => simp [hs, isDigitPart, hdig]
  | some p =>
      obtain ⟨a, b⟩ := p
      simp [hs, isDigitPart, hdig]

theorem parseFinite_sign_none {c : Char} (t : List Char)
    (h : c = '+' ∨ c = '-') : parseFinite (c :: t) = none := by
  have he : ¬ (c = 'e' ∨ c = 'E') := by rcases h with h | h <;> simp [h]
  unfold parseFinite
  rw [splitAtExpChar_cons_ne t he]
  cases hs : splitAtExpChar t with
  | none => simp [hs, parseMantissa_sign_none t h]
  | some p =>
      obtain ⟨m, e⟩ := p
      simp [hs, parseMantissa_sign_none m h]

theorem parseUnsignedFull_sign_none {c : Char} (t : List Char)
    (h : c = '+' ∨ c = '-') : parseUnsignedFull (c :: t) = none := by
  have hplus : Char.toLower '+' = '+' := by decide
  have hminus : Char.toLower '-' = '-' := by decide
  rcases h with h | h <;> subst h
  · simp [parseUnsignedFull, hplus, parseFinite_sign_none t (Or.inl rfl)]
  · simp [parseUnsignedFull, hminus, parseFinite_sign_none t (Or.inr rfl)]

theorem pyFloatFull_of_parseUnsignedFull {t : List Char} {w : PyVal}
    (h : parseUnsignedFull t = some w) : pyFloatFull t = some w := by
  match t with
  | [] =>
      rw [show parseUnsignedFull [] = none from by
        simp [parseUnsignedFull, parseFinite, parseMantissa, splitAtExpChar,
          splitAtChar, isDigitPart]] at h
      exact absurd h (by simp)
  | c :: t' =>
      by_cases hp : c = '+'
      · subst hp
        rw [parseUnsignedFull_sign_none t' (Or.inl rfl)] at h
        exact absurd h (by simp)
      · by_cases hm : c = '-'
        · subst hm
          rw [parseUnsignedFull_sign_none t' (Or.inr rfl)] at h
          exact absurd h (by simp)
        · simpa [pyFloatFull, hp, hm] using h

theorem aodf_minus_finite {x : List Char} {v : ℚ}
    (hm : startsWithChar '-' (strip x) = true)
    (hp : pyFloatFull (strip x) = some (PyVal.finite v)) (hv : v ≠ 0) :
    american_or_decimal_full x = PyVal.finite (1 + 100 / |v|) := by
  simp only [american_or_decimal_full]
  rw [hm, if_pos rfl, hp]
  have habs : ¬ (PyVal.abs (PyVal.finite v) = PyVal.finite 0) := by
    simp [PyVal.abs, abs_eq_zero, hv]
  simp [habs, PyVal.abs, PyVal.hundredDiv, PyVal.add, hv]

theorem aodf_minus_none {x : List Char}
    (hm : startsWithChar '-' (strip x) = true)
    (hp : pyFloatFull (strip x) = none) :
    american_or_decimal_full x = PyVal.nan := by
  simp only [american_or_decimal_full]
  rw [hm, if_pos rfl, hp]

theorem aodf_minus_neginf {x : List Char}
    (hm : startsWithChar '-' (strip x) = true)
    (hp : pyFloatFull (strip x) = some PyVal.neginf) :
    american_or_decimal_full x = PyVal.finite 1 := by
  simp only [american_or_decimal_full]
  rw [hm, if_pos rfl, hp]
  simp [PyVal.abs, PyVal.hundredDiv, PyVal.add]

theorem aodf_minus_nan {x : List Char}
    (hm : startsWithChar '-' (strip x) = true)
    (hp : pyFloatFull (strip x) = some PyVal.nan) :
    american_or_decimal_full x = PyVal.nan := by
  simp only [american_or_decimal_full]
  rw [hm, if_pos rfl, hp]
  simp [PyVal.abs, PyVal.hundredDiv, PyVal.add]

theorem aodf_not_minus {x : List Char}
    (hm : startsWithChar '-' (strip x) = false) :
    american_or_decimal_full x = american_to_decimal_full (strip x) := by
  simp only [american_or_decimal_full]
  rw [hm]
  simp

theorem a2df_parse_none {x : List Char}
    (hp : pyFloatFull (strip x) = none) :
    american_to_decimal_full x = PyVal.nan := by
  simp only [american_to_decimal_full]
  rw [hp]

theorem a2df_decimal {x : List Char} {v : ℚ}
    (hp : pyFloatFull (strip x) = some (PyVal.finite v))
    (h1 : 1.01 ≤ v) (h2 : v ≤ 100) :
    american_to_decimal_full x = PyVal.finite v := by
  simp only [american_to_decimal_full, hp]
  simp [PyVal.le, h1, h2]

theorem a2df_plus {x : List Char} {v : ℚ}
    (hp : pyFloatFull (strip x) = some (PyVal.finite v))
    (hno : ¬ (1.01 ≤ v ∧ v ≤ 100))
    (hplus : startsWithChar '+' (strip x) = true) :
    american_to_decimal_full x = PyVal.finite (1 + v / 100) := by
  obtain ⟨t, ht⟩ := startsWithChar_true hplus
  have hpu : parseUnsignedFull t = some (PyVal.finite v) := by
    rw [ht] at hp
    simpa [pyFloatFull] using hp
  have hdrop : pyFloatFull ((strip x).drop 1) = some (PyVal.finite v) := by
    rw [ht]
    exact pyFloatFull_of_parseUnsignedFull hpu
  simp only [american_to_decimal_full, hp, hdrop]
  rw [if_neg (by
      intro hcond
      apply hno
      simpa [PyVal.le, Bool.and_eq_true, decide_eq_true_eq] using hcond),
    if_pos hplus]
  simp [PyVal.divByPos, PyVal.add]

theorem a2df_neg {x : List Char} {v : ℚ}
    (hp : pyFloatFull (strip x) = some (PyVal.finite v))
    (hno : ¬ (1.01 ≤ v ∧ v ≤ 100))
    (hplus : startsWithChar '+' (strip x) = false) (hv : v < 0) :
    american_to_decimal_full x = PyVal.finite (1 + 100 / |v|) := by
  simp only [american_to_decimal_full, hp]
  rw [if_neg (by
      intro hcond
      apply hno
      simpa [PyVal.le, Bool.and_eq_true, decide_eq_true_eq] using hcond),
    hplus]
  simp [PyVal.lt, hv, PyVal.abs, PyVal.hundredDiv, PyVal.add]

theorem a2df_large {x : List Char} {v : ℚ}
    (hp : pyFloatFull (strip x) = some (PyVal.finite v))
    (hno : ¬ (1.01 ≤ v ∧ v ≤ 100))
    (hplus : startsWithChar '+' (strip x) = false)
    (hneg : ¬ v < 0) (h100 : 100 ≤ v) :
    american_to_decimal_full x = PyVal.finite (1 + v / 100) := by
  simp only [american_to_decimal_full, hp]
  rw [if_neg (by
      intro hcond
      apply hno
      simpa [PyVal.le, Bool.and_eq_true, decide_eq_true_eq] using hcond),
    hplus]
  simp [PyVal.lt, hneg, PyVal.le, h100, PyVal.divByPos, PyVal.add]

theorem a2df_invalid {x : List Char} {v : ℚ}
    (hp : pyFloatFull (strip x) = some (PyVal.finite v))
    (hno : ¬ (1.01 ≤ v ∧ v ≤ 100))
    (hplus : startsWithChar '+' (strip x) = false)
    (hneg : ¬ v < 0) (h100 : ¬ 100 ≤ v) :
    american_to_decimal_full x = PyVal.nan := by
  simp only [american_to_decimal_full, hp]
  rw [if_neg (by
      intro hcond
      apply hno
      simpa [PyVal.le, Bool.and_eq_true, decide_eq_true_eq] using hcond),
    hplus]
  simp [PyVal.lt, hneg, PyVal.le, h100]

theorem a2df_inf {x : List Char}
    (hp : pyFloatFull (strip x) = some PyVal.inf) :
    american_to_decimal_full x = PyVal.inf := by
  by_cases hplus : startsWithChar '+' (strip x) = true
  · obtain ⟨t, ht⟩ := startsWithChar_true hplus
    have hpu : parseUnsignedFull t = some PyVal.inf := by
      rw [ht] at hp
      simpa [pyFloatFull] using hp
    have hdrop : pyFloatFull ((strip x).drop 1) = some PyVal.inf := by
      rw [ht]
      exact pyFloatFull_of_parseUnsignedFull hpu
    simp only [american_to_decimal_full, hp, hdrop]
    rw [if_neg (by simp [PyVal.le]), if_pos hplus]
    simp [PyVal.divByPos, PyVal.add]
  · have hplus2 : startsWithChar '+' (strip x) = false := by simpa using hplus
    simp only [american_to_decimal_full, hp]
    rw [if_neg (by simp [PyVal.le]), hplus2]
    simp [PyVal.lt, PyVal.le, PyVal.divByPos, PyVal.add]

theorem a2df_nan {x : List Char}
    (hp : pyFloatFull (strip x) = some PyVal.nan) :
    american_to_decimal_full x = PyVal.nan := by
  by_cases hplus : startsWithChar '+' (strip x) = true
  · obtain ⟨t, ht⟩ := startsWithChar_true hplus
    have hpu : parseUnsignedFull t = some PyVal.nan := by
      rw [ht] at hp
      simpa [pyFloatFull] using hp
    have hdrop : pyFloatFull ((strip x).drop 1) = some PyVal.nan := by
      rw [ht]
      exact pyFloatFull_of_parseUnsignedFull hpu
    simp only [american_to_decimal_full, hp, hdrop]
    rw [if_neg (by simp [PyVal.le]), if_pos hplus]
    simp [PyVal.divByPos, PyVal.add]
  · have hplus2 : startsWithChar '+' (strip x) = false := by simpa using hplus
    simp only [american_to_decimal_full, hp]
    rw [if_neg (by simp [PyVal.le]), hplus2]
    simp [PyVal.lt, PyVal.le]

/-- C1: odds normalization follows the spec case analysis, over the
complete `float()` string grammar (underscore-separated digits,
exponents, and the `inf`/`infinity`/`nan` spellings).  A string whose
stripped text starts with `-` is parsed directly as negative American
odds (`1 + 100/|value|`: stated for a finite parsed value other than
`0`, where the formula is defined, and giving `1.0` at negative
infinity), bypassing the decimal-range check, and an unparseable
string gives Invalid; otherwise, a parse failure gives Invalid, a
finite value in [1.01, 100] is returned unchanged, else a `+`-prefixed
string gives `1 + value/100`, else a negative value gives
`1 + 100/|value|`, else a value at least 100 gives `1 + value/100`
(infinity stays infinity), else Invalid (and a parsed nan gives
Invalid).  Concretely, normalize of "+110" is 2.10, of "-120" is
11/6 = 1.8333..., of "2.05" is 2.05, of "abc" is Invalid, of "1e5" is
1001, of "-1e2" is 2, and of "1_0" is 10. -/
theorem normalize_case_analysis :
    (∀ (s : String) (v : ℚ), startsWithChar '-' (strip s.data) = true →
        pyFloatFull (strip s.data) = some (PyVal.finite v) → v ≠ 0 →
        normalizeOddsFull s = PyVal.finite (1 + 100 / |v|)) ∧
    (∀ s : String, startsWithChar '-' (strip s.data) = true →
        pyFloatFull (strip s.data) = none → normalizeOddsFull s = PyVal.nan) ∧
    (∀ s : String, startsWithChar '-' (strip s.data) = true →
        pyFloatFull (strip s.data) = some PyVal.neginf →
        normalizeOddsFull s = PyVal.finite 1) ∧
    (∀ s : String, startsWithChar '-' (strip s.data) = true →
        pyFloatFull (strip s.data) = some PyVal.nan →
        normalizeOddsFull s = PyVal.nan) ∧
    (∀ s : String, startsWithChar '-' (strip s.data) = false →
        pyFloatFull (strip s.data) = none → normalizeOddsFull s = PyVal.nan) ∧
    (∀ (s : String) (v : ℚ), startsWithChar '-' (strip s.data) = false →
        pyFloatFull (strip s.data) = some (PyVal.finite v) → 1.01 ≤ v → v ≤ 100 →
        normalizeOddsFull s = PyVal.finite v) ∧
    (∀ (s : String) (v : ℚ), startsWithChar '-' (strip s.data) = false →
        pyFloatFull (strip s.data) = some (PyVal.finite v) →
        ¬ (1.01 ≤ v ∧ v ≤ 100) → startsWithChar '+' (strip s.data) = true →
        normalizeOddsFull s = PyVal.finite (1 + v / 100)) ∧
    (∀ (s : String) (v : ℚ), startsWithChar '-' (strip s.data) = false →
        pyFloatFull (strip s.data) = some (PyVal.finite v) →
        ¬ (1.01 ≤ v ∧ v ≤ 100) → startsWithChar '+' (strip s.data) = false →
        v < 0 → normalizeOddsFull s = PyVal.finite (1 + 100 / |v|)) ∧
    (∀ (s : String) (v : ℚ), startsWithChar '-' (strip s.data) = false →
        pyFloatFull (strip s.data) = some (PyVal.finite v) →
        ¬ (1.01 ≤ v ∧ v ≤ 100) → startsWithChar '+' (strip s.data) = false →
        ¬ v < 0 → 100 ≤ v → normalizeOddsFull s = PyVal.finite (1 + v / 100)) ∧
    (∀ (s : String) (v : ℚ), startsWithChar '-' (strip s.data) = false →
        pyFloatFull (strip s.data) = some (PyVal.finite v) →
        ¬ (1.01 ≤ v ∧ v ≤ 100) → startsWithChar '+' (strip s.data) = false →
        ¬ v < 0 → ¬ 100 ≤ v → normalizeOddsFull s = PyVal.nan) ∧
    (∀ s : String, startsWithChar '-' (strip s.data) = false →
        pyFloatFull (strip s.data) = some PyVal.inf →
        normalizeOddsFull s = PyVal.inf) ∧
    (∀ s : String, startsWithChar '-' (strip s.data) = false →
        pyFloatFull (strip s.data) = some PyVal.nan →
        normalizeOddsFull s = PyVal.nan) ∧
    normalizeOddsFull ("+110") = PyVal.finite (21 / 10) ∧
    normalizeOddsFull ("-120") = PyVal.finite (11 / 6) ∧
    normalizeOddsFull ("2.05") = PyVal.finite (41 / 20) ∧
    normalizeOddsFull ("abc") = PyVal.nan ∧
    normalizeOddsFull ("1e5") = PyVal.finite 1001 ∧
    normalizeOddsFull ("-1e2") = PyVal.finite 2 ∧
    normalizeOddsFull ("1_0") = PyVal.finite 10 ∧
    normalizeOddsFull ("inf") = PyVal.inf ∧
    normalizeOddsFull ("-inf") = PyVal.finite 1 := by
  refine ⟨?_, ?_, ?_, ?_, ?_, ?_, ?_, ?_, ?_, ?_, ?_, ?_, ?_, ?_, ?_, ?_, ?_,
    ?_, ?_, ?_, ?_⟩
  · intro s v hm hp hv
    exact aodf_minus_finite hm hp hv
  · intro s hm hp
    exact aodf_minus_none hm hp
  · intro s hm hp
    exact aodf_minus_neginf hm hp
  · intro s hm hp
    exact aodf_minus_nan hm hp
  · intro s hm hp
    rw [normalizeOddsFull, aodf_not_minus hm]
    exact a2df_parse_none (show pyFloatFull (strip (strip s.data)) = none by
      rw [strip_idem]; exact hp)
  · intro s v hm hp h1 h2
    rw [normalizeOddsFull, aodf_not_minus hm]
    exact a2df_decimal (show pyFloatFull (strip (strip s.data)) =
      some (PyVal.finite v) by rw [strip_idem]; exact hp) h1 h2
  · intro s v hm hp hno hplus
    rw [normalizeOddsFull, aodf_not_minus hm]
    exact a2df_plus (show pyFloatFull (strip (strip s.data)) =
        some (PyVal.finite v) by rw [strip_idem]; exact hp) hno
      (show startsWithChar '+' (strip (strip s.data)) = true by
        rw [strip_idem]; exact hplus)
  · intro s v hm hp hno hplus hv
    rw [normalizeOddsFull, aodf_not_minus hm]
    exact a2df_neg (show pyFloatFull (strip (strip s.data)) =
        some (PyVal.finite v) by rw [strip_idem]; exact hp) hno
      (show startsWithChar '+' (strip (strip s.data)) = false by
        rw [strip_idem]; exact hplus) hv
  · intro s v hm hp hno hplus hv h100
    rw [normalizeOddsFull, aodf_not_minus hm]
    exact a2df_large (show pyFloatFull (strip (strip s.data)) =
        some (PyVal.finite v) by rw [strip_idem]; exact hp) hno
      (show startsWithChar '+' (strip (strip s.data)) = false by
        rw [strip_idem]; exact hplus) hv h100
  · intro s v hm hp hno hplus hv h100
    rw [normalizeOddsFull, aodf_not_minus hm]
    exact a2df_invalid (show pyFloatFull (strip (strip s.data)) =
        some (PyVal.finite v) by rw [strip_idem]; exact hp) hno
      (show startsWithChar '+' (strip (strip s.data)) = false by
        rw [strip_idem]; exact hplus) hv h100
  · intro s hm hp
    rw [normalizeOddsFull, aodf_not_minus hm]
    exact a2df_inf (show pyFloatFull (strip (strip s.data)) = some PyVal.inf by
      rw [strip_idem]; exact hp)
  · intro s hm hp
    rw [normalizeOddsFull, aodf_not_minus hm]
    exact a2df_nan (show pyFloatFull (strip (strip s.data)) = some PyVal.nan by
      rw [strip_idem]; exact hp)
  all_goals (
    simp [normalizeOddsFull, american_or_decimal_full, american_to_decimal_full,
      pyFloatFull, parseUnsignedFull, parseFinite, parseMantissa, parseExp,
      splitAtChar, splitAtExpChar, isDigitPart, digitPartTail, digitsOf,
      natOfDigits, strip, startsWithChar, PyVal.le, PyVal.lt, PyVal.add,
      PyVal.divByPos, PyVal.hundredDiv, PyVal.abs, PyVal.neg] <;> norm_num)

/-- Witness for C1: the negative-American conjunct applied to "-120". -/
theorem normalize_case_analysis_witness :
    normalizeOddsFull ("-120") = PyVal.finite (1 + 100 / |(-120 : ℚ)|) :=
  normalize_case_analysis.1 ("-120") (-120) (by decide)
    (by simp [pyFloatFull, parseUnsignedFull, parseFinite, parseMantissa,
      splitAtChar, splitAtExpChar, isDigitPart, digitPartTail, digitsOf,
      natOfDigits, strip, PyVal.neg])
    (by norm_num)

/-- C10: whenever normalization returns a number, that number is at
least 1; the bound 1 is attained, at input "+0". -/
theorem normalize_lower_bound :
    (∀ (s : String) (v : ℚ), normalizeOdds s = some v → 1 ≤ v) ∧
    normalizeOdds ("+0") = some 1 := by
  constructor
  · intro s v h
    exact normalize_ge_one h
  · simp [normalizeOdds, american_or_decimal, american_to_decimal, pyFloat,
      parseUnsigned, strip, natOfDigits, startsWithChar]
    norm_num

/-- Witness for C10: the lower bound applied to the concrete
normalization of "-120". -/
theorem normalize_lower_bound_witness : (1 : ℚ) ≤ 11 / 6 :=
  normalize_lower_bound.1 ("-120") (11 / 6)
    (by simp [normalizeOdds, american_or_decimal, american_to_decimal, pyFloat,
        parseUnsigned, strip, natOfDigits, startsWithChar]; norm_num)

/-- C9: normalization is idempotent on strings carrying a decimal
value in [1.01, 100]: it returns the parsed value unchanged, and
feeding that value back through normalization returns it again. -/
theorem normalize_idempotent :
    ∀ (x : String) (v : ℚ), pyFloat (strip x.data) = some v →
      1.01 ≤ v → v ≤ 100 →
      normalizeOdds x = some v ∧
      (normalizeOdds x).bind normalizeVal = normalizeOdds x := by
  intro x v hp h1 h2
  have hm : startsWithChar '-' (strip x.data) = false := by
    by_contra hc
    have hc' : startsWithChar '-' (strip x.data) = true := by simpa using hc
    obtain ⟨t, ht⟩ := startsWithChar_true hc'
    rw [ht] at hp
    have := pyFloat_nonpos_of_minus hp
    linarith
  have hval : normalizeOdds x = some v := by
    rw [normalizeOdds, aod_not_minus hm]
    exact a2d_decimal (show pyFloat (strip (strip x.data)) = some v by
      rw [strip_idem]; exact hp) h1 h2
  refine ⟨hval, ?_⟩
  rw [hval, Option.some_bind, normalizeVal]
  rw [if_neg (by linarith), if_pos ⟨h1, h2⟩]

/-- Witness for C9 at the decimal input "2.05". -/
theorem normalize_idempotent_witness :
    normalizeOdds ("2.05") = some (41 / 20) ∧
    (normalizeOdds ("2.05")).bind normalizeVal = normalizeOdds ("2.05") :=
  normalize_idempotent ("2.05") (41 / 20)
    (by simp [pyFloat, parseUnsigned, strip, natOfDigits]; norm_num)
    (by norm_num) (by norm_num)

theorem aod_eval_plus110 : american_or_decimal (['+', '1', '1', '0']) = some (21 / 10) := by
  simp [american_or_decimal, american_to_decimal, pyFloat, parseUnsigned,
    strip, natOfDigits, startsWithChar]
  norm_num

theorem aod_eval_plus120 : american_or_decimal (['+', '1', '2', '0']) = some (11 / 5) := by
  simp [american_or_decimal, american_to_decimal, pyFloat, parseUnsigned,
    strip, natOfDigits, startsWithChar]
  norm_num

theorem aod_eval_plusZero : american_or_decimal (['+', '0']) = some 1 := by
  simp [american_or_decimal, american_to_decimal, pyFloat, parseUnsigned,
    strip, natOfDigits, startsWithChar]
  norm_num

theorem aod_eval_twoOhFive : american_or_decimal (['2', '.', '0', '5']) = some (41 / 20) := by
  simp [american_or_decimal, american_to_decimal, pyFloat, parseUnsigned,
    strip, natOfDigits, startsWithChar]
  norm_num

theorem aod_eval_minus120 : american_or_decimal (['-', '1', '2', '0']) = some (11 / 6) := by
  simp [american_or_decimal, american_to_decimal, pyFloat, parseUnsigned,
    strip, natOfDigits, startsWithChar]
  norm_num

theorem aod_eval_minus115 : american_or_decimal (['-', '1', '1', '5']) = some (43 / 23) := by
  simp [american_or_decimal, american_to_decimal, pyFloat, parseUnsigned,
    strip, natOfDigits, startsWithChar]
  norm_num

theorem aod_eval_abc : american_or_decimal (['a', 'b', 'c']) = none := by
  simp [american_or_decimal, american_to_decimal, pyFloat, parseUnsigned,
    strip, natOfDigits, startsWithChar]

/-- Inversion of row cleaning: a produced CleanedRecord carries the
normalized odds of its source row, and its CLV column is the derived
expression. -/
theorem cleanRecord_some {r : WagerRecord} {cr : CleanedRecord}
    (h : cleanRecord r = some cr) :
    american_or_decimal r.oddsPlaced.data = some cr.oddsPlacedDec ∧
    american_or_decimal r.closingOdds.data = some cr.closingOddsDec ∧
    cr.clvPercent =
      (cr.closingOddsDec - cr.oddsPlacedDec) / cr.oddsPlacedDec * 100 := by
  unfold cleanRecord at h
  rcases ho : american_or_decimal r.oddsPlaced.data with _ | o <;> rw [ho] at h <;>
    rcases hc : american_or_decimal r.closingOdds.data with _ | c <;> rw [hc] at h <;>
    rcases hb : r.betTime with _ | b <;> rw [hb] at h <;>
    rcases he : r.eventTime with _ | e <;> rw [he] at h <;>
    rcases hs : r.stake with _ | q | t <;> rw [hs] at h <;>
    simp at h <;>
    (subst h; refine ⟨?_, ?_, ?_⟩ <;> simp [ho, hc])

theorem cleanRecord_sampleRow1 : cleanRecord sampleRow1 = some sampleCleaned1 := by
  simp [cleanRecord, sampleRow1, sampleCleaned1, aod_eval_plus110, aod_eval_plus120]
  norm_num

theorem cleanRecord_sampleRow2 : cleanRecord sampleRow2 = some sampleCleaned2 := by
  simp [cleanRecord, sampleRow2, sampleCleaned2, aod_eval_minus120, aod_eval_minus115]
  norm_num

theorem cleanRecord_oddsZeroRow : cleanRecord oddsZeroRow = some oddsZeroCleaned := by
  simp [cleanRecord, oddsZeroRow, oddsZeroCleaned, aod_eval_plusZero, aod_eval_twoOhFive]
  norm_num

theorem cleanRecord_stakeAbcRow : cleanRecord stakeAbcRow = some stakeAbcCleaned := by
  simp [cleanRecord, stakeAbcRow, stakeAbcCleaned, aod_eval_plus110, aod_eval_plus120]
  norm_num

/-- C2 counterexamples: the claimed invariant fails on the code in two
ways.  The input "+0" normalizes to exactly 1.0 and the row survives
cleaning, refuting the strict bound; and a row whose Stake cell is the
non-numeric text "abc" survives cleaning with a stake that is not a
number, refuting the finiteness conjunct. -/
theorem clean_invariant_counterexample :
    (¬ ∀ cr ∈ clean [oddsZeroRow], 1 < cr.oddsPlacedDec) ∧
    (¬ ∀ cr ∈ clean [stakeAbcRow], ∃ q : ℚ, cr.stake = CsvCell.num q) := by
  constructor
  · intro h
    have hmem : oddsZeroCleaned ∈ clean [oddsZeroRow] := by
      simp [clean, cleanRecord_oddsZeroRow]
    have h1 := h oddsZeroCleaned hmem
    rw [oddsZeroCleaned] at h1
    exact absurd h1 (by norm_num)
  · intro h
    have hmem : stakeAbcCleaned ∈ clean [stakeAbcRow] := by
      simp [clean, cleanRecord_stakeAbcRow]
    obtain ⟨q, hq⟩ := h stakeAbcCleaned hmem
    simp [stakeAbcCleaned] at hq

/-- C2 (amended): every record produced by cleaning has normalized
odds at least 1.0 on both sides.  The bound 1.0 is attained, so the
inequality is not strict; the original finiteness conjunct is dropped,
refuted by the surviving non-numeric stake (and, in the program, by a
ClosingOdds of "inf" surviving dropna with non-finite derived
columns). -/
theorem clean_invariant_ge_one :
    ∀ (rs : List WagerRecord) (cr : CleanedRecord), cr ∈ clean rs →
      1 ≤ cr.oddsPlacedDec ∧ 1 ≤ cr.closingOddsDec := by
  intro rs cr hmem
  rw [clean, List.mem_filterMap] at hmem
  obtain ⟨r, _, hr⟩ := hmem
  obtain ⟨ho, hc, _⟩ := cleanRecord_some hr
  exact ⟨normalize_ge_one ho, normalize_ge_one hc⟩

/-- Witness for the amended C2 on a concrete cleaned row. -/
theorem clean_invariant_ge_one_witness :
    1 ≤ sampleCleaned1.oddsPlacedDec ∧ 1 ≤ sampleCleaned1.closingOddsDec :=
  clean_invariant_ge_one [sampleRow1] sampleCleaned1
    (by simp [clean, cleanRecord_sampleRow1])

/-- C3 fails on the code: a row whose Stake is the non-numeric text
"abc" is NOT dropped by cleaning.  `dropna` removes only NaN cells,
and a string cell is not NaN, so the row survives with its stake still
the text "abc". -/
theorem clean_keeps_nonnumeric_stake :
    (clean [stakeAbcRow]).map (fun cr => cr.stake) = [CsvCell.str ("abc")] ∧
    (clean [stakeAbcRow]).length = 1 := by
  constructor <;> simp [clean, cleanRecord_stakeAbcRow, stakeAbcCleaned]

/-- C8: the sign of the derived CLV percentage of any cleaned record
matches the order of its two normalized odds. -/
theorem clv_sign_matches :
    ∀ (rs : List WagerRecord) (cr : CleanedRecord), cr ∈ clean rs →
      (0 < cr.clvPercent ↔ cr.oddsPlacedDec < cr.closingOddsDec) ∧
      (cr.clvPercent = 0 ↔ cr.closingOddsDec = cr.oddsPlacedDec) ∧
      (cr.clvPercent < 0 ↔ cr.closingOddsDec < cr.oddsPlacedDec) := by
  intro rs cr hmem
  rw [clean, List.mem_filterMap] at hmem
  obtain ⟨r, _, hr⟩ := hmem
  obtain ⟨ho, hc, hclv⟩ := cleanRecord_some hr
  have h1 : 1 ≤ cr.oddsPlacedDec := normalize_ge_one ho
  have hpos : 0 < cr.oddsPlacedDec := by linarith
  have hexp : cr.clvPercent = (cr.closingOddsDec - cr.oddsPlacedDec) *
      (100 / cr.oddsPlacedDec) := by
    rw [hclv]; ring
  have hfac : 0 < 100 / cr.oddsPlacedDec := by positivity
  have hiff1 : 0 < cr.clvPercent ↔ cr.oddsPlacedDec < cr.closingOddsDec := by
    constructor
    · intro h
      by_contra hcon
      push_neg at hcon
      have hd : cr.closingOddsDec - cr.oddsPlacedDec ≤ 0 := by linarith
      have hm := mul_nonpos_of_nonpos_of_nonneg hd hfac.le
      rw [← hexp] at hm
      linarith
    · intro h
      have hd : 0 < cr.closingOddsDec - cr.oddsPlacedDec := by linarith
      have hm := mul_pos hd hfac
      rw [← hexp] at hm
      linarith
  have hiff2 : cr.clvPercent = 0 ↔ cr.closingOddsDec = cr.oddsPlacedDec := by
    constructor
    · intro h
      rw [hexp] at h
      rcases mul_eq_zero.mp h with h0 | h0
      · linarith
      · exact absurd h0 (by positivity)
    · intro h
      rw [hexp, h]
      ring
  have hiff3 : cr.clvPercent < 0 ↔ cr.closingOddsDec < cr.oddsPlacedDec := by
    constructor
    · intro h
      by_contra hcon
      push_neg at hcon
      have hd : 0 ≤ cr.closingOddsDec - cr.oddsPlacedDec := by linarith
      have hm := mul_nonneg hd hfac.le
      rw [← hexp] at hm
      linarith
    · intro h
      have hd : cr.closingOddsDec - cr.oddsPlacedDec < 0 := by linarith
      have hm := mul_neg_of_neg_of_pos hd hfac
      rw [← hexp] at hm
      linarith
  exact ⟨hiff1, hiff2, hiff3⟩

/-- Witness for C8 on a concrete cleaned row with positive CLV. -/
theorem clv_sign_matches_witness :
    (0 < sampleCleaned2.clvPercent ↔
      sampleCleaned2.oddsPlacedDec < sampleCleaned2.closingOddsDec) ∧
    (sampleCleaned2.clvPercent = 0 ↔
      sampleCleaned2.closingOddsDec = sampleCleaned2.oddsPlacedDec) ∧
    (sampleCleaned2.clvPercent < 0 ↔
      sampleCleaned2.closingOddsDec < sampleCleaned2.oddsPlacedDec) :=
  clv_sign_matches [sampleRow2] sampleCleaned2
    (by simp [clean, cleanRecord_sampleRow2])

/-- A row whose OddsPlaced text cannot be normalized is always dropped
by cleaning. -/
theorem cleanRecord_none_of_bad_odds {r : WagerRecord}
    (h : american_or_decimal r.oddsPlaced.data = none) :
    cleanRecord r = none := by
  unfold cleanRecord
  rw [h]
  rcases hc : american_or_decimal r.closingOdds.data with _ | c <;>
    rcases hb : r.betTime with _ | b <;>
    rcases he : r.eventTime with _ | e <;>
    rcases hs : r.stake with _ | q | t <;>
    simp

/-- C4: when every row is dropped by cleaning, the pipeline halts with
the terminal no-valid-rows error; that error is distinct from the
structural missing-columns error; and, in particular, when every
OddsPlaced value fails to normalize the pipeline never returns an
`ok` dataset for the metrics stage to consume. -/
theorem pipeline_empty_terminal :
    (∀ (cols : List String) (rows : List WagerRecord),
        (∀ c ∈ requiredCols, c ∈ cols) →
        (∀ r ∈ rows, cleanRecord r = none) →
        pipeline cols rows = Except.error PipeError.noValidRows) ∧
    (∀ ls : List String,
        (PipeError.noValidRows : PipeError) ≠ PipeError.missingColumns ls) ∧
    (∀ (cols : List String) (rows : List WagerRecord) (out : List CleanedRecord),
        (∀ r ∈ rows, american_or_decimal r.oddsPlaced.data = none) →
        pipeline cols rows ≠ Except.ok out) := by
  refine ⟨?_, ?_, ?_⟩
  · intro cols rows hcols hdrop
    have hclean : clean rows = [] := by
      rw [clean, List.filterMap_eq_nil_iff]
      exact hdrop
    simp [pipeline, hclean]
    exact hcols
  · intro ls h
    exact PipeError.noConfusion h
  · intro cols rows out hbad
    have hclean : clean rows = [] := by
      rw [clean, List.filterMap_eq_nil_iff]
      intro r hr
      exact cleanRecord_none_of_bad_odds (hbad r hr)
    simp only [pipeline]
    split
    · simp
    · simp [hclean]

/-- Witness for C4: a one-row upload whose odds text is "abc" reaches
the terminal no-valid-rows error. -/
theorem pipeline_empty_terminal_witness :
    pipeline (requiredCols ++ [("Result")]) [badOddsRow] =
      Except.error PipeError.noValidRows :=
  pipeline_empty_terminal.1 (requiredCols ++ [("Result")]) [badOddsRow]
    (by decide)
    (by
      intro r hr
      rw [List.mem_singleton] at hr
      subst hr
      exact cleanRecord_none_of_bad_odds (by
        show american_or_decimal badOddsRow.oddsPlaced.data = none
        simp [badOddsRow, aod_eval_abc]))

theorem clamp01_bounds (v : ℚ) : 0 ≤ clamp01 v ∧ clamp01 v ≤ 1 := by
  constructor
  · exact le_max_left 0 (min 1 v)
  · apply max_le
    · norm_num
    · exact min_le_left 1 v

theorem roundHalfEven_bounds {q : ℚ} (h0 : 0 ≤ q) (h1 : q ≤ 1000) :
    0 ≤ roundHalfEven q ∧ roundHalfEven q ≤ 1000 := by
  have hf0 : 0 ≤ ⌊q⌋ := Int.floor_nonneg.mpr h0
  have hfle : (⌊q⌋ : ℚ) ≤ q := Int.floor_le q
  have hfub : ⌊q⌋ ≤ 1000 := by
    have hq : (⌊q⌋ : ℚ) ≤ 1000 := le_trans hfle h1
    exact_mod_cast hq
  have hplus : ¬ (q - ⌊q⌋ < 1 / 2) → ⌊q⌋ + 1 ≤ 1000 := by
    intro hr
    push_neg at hr
    have h999 : (⌊q⌋ : ℚ) < 1000 := by linarith
    have : ⌊q⌋ < 1000 := by exact_mod_cast h999
    omega
  unfold roundHalfEven
  split
  · exact ⟨hf0, hfub⟩
  · rename_i hr
    split
    · exact ⟨by omega, hplus hr⟩
    · split
      · exact ⟨hf0, hfub⟩
      · exact ⟨by omega, hplus hr⟩

theorem risk_01_bounds (m : AggregateMetrics) :
    0 ≤ risk_01 m ∧ risk_01 m ≤ 1 := by
  have h1 : 0 ≤ clv_risk m ∧ clv_risk m ≤ 1 := clamp01_bounds _
  have h2 : 0 ≤ posclv_risk m ∧ posclv_risk m ≤ 1 := clamp01_bounds _
  have h3 : 0 ≤ stake_risk m ∧ stake_risk m ≤ 1 := clamp01_bounds _
  have h4 : 0 ≤ market_risk m ∧ market_risk m ≤ 1 := clamp01_bounds _
  have h5 : 0 ≤ book_risk m ∧ book_risk m ≤ 1 := clamp01_bounds _
  have h6 : 0 ≤ lead_mean_risk m ∧ lead_mean_risk m ≤ 1 := clamp01_bounds _
  have h7 : 0 ≤ lead_std_risk m ∧ lead_std_risk m ≤ 1 := clamp01_bounds _
  unfold risk_01
  constructor <;>
    linarith [h1.1, h1.2, h2.1, h2.2, h3.1, h3.2, h4.1, h4.2, h5.1, h5.2,
      h6.1, h6.2, h7.1, h7.2]

/-- C5: the composite risk score, the rounded weighted sum of the seven
clamped sub-risks with weights 0.28, 0.12, 0.16, 0.14, 0.10, 0.10,
0.10, always lies in [0, 100]. -/
theorem risk_score_bounds (m : AggregateMetrics) :
    0 ≤ risk_score m ∧ risk_score m ≤ 100 := by
  obtain ⟨hl, hu⟩ := risk_01_bounds m
  have h0 : (0 : ℚ) ≤ 10 * (100.0 * risk_01 m) := by linarith
  have h1 : 10 * (100.0 * risk_01 m) ≤ 1000 := by linarith
  obtain ⟨hr0, hr1⟩ := roundHalfEven_bounds h0 h1
  unfold risk_score round1
  constructor
  · have hc : (0 : ℚ) ≤ (roundHalfEven (10 * (100.0 * risk_01 m)) : ℚ) := by
      exact_mod_cast hr0
    linarith
  · have hc : ((roundHalfEven (10 * (100.0 * risk_01 m)) : ℚ)) ≤ 1000 := by
      exact_mod_cast hr1
    linarith

/-- Witness for C5 at a concrete metrics vector. -/
theorem risk_score_bounds_witness :
    0 ≤ risk_score metricsSample ∧ risk_score metricsSample ≤ 100 :=
  risk_score_bounds metricsSample

/-- C6: the displayed recommendation list carries exactly one fixed
advisory string per sub-risk strictly above 0.6, in the fixed source
order clv, posclv, stake, market, book, leadMean, leadStd; when no
sub-risk exceeds 0.6 it is exactly the single neutral message; it is
never empty. -/
theorem recommendations_spec (p : RiskProfile) :
    recommendations p =
      (if 0.6 < p.clv ∨ 0.6 < p.posclv ∨ 0.6 < p.stake ∨ 0.6 < p.market ∨
          0.6 < p.book ∨ 0.6 < p.leadMean ∨ 0.6 < p.leadStd then
        (if 0.6 < p.clv then
          ["High positive CLV: mix in later bets or smaller edges to look less sharp."]
        else []) ++
        (if 0.6 < p.posclv then
          ["Large share beating the close: add some neutral/coin-flip markets."]
        else []) ++
        (if 0.6 < p.stake then
          ["Stake sizes too consistent: vary stakes ±10–25% around your base."]
        else []) ++
        (if 0.6 < p.market then
          ["Market concentration high: add 2–3 different markets or sports weekly."]
        else []) ++
        (if 0.6 < p.book then
          ["Book concentration high: spread action across additional legal books."]
        else []) ++
        (if 0.6 < p.leadMean then
          ["You bet very early on average: add some closer-to-start bets."]
        else []) ++
        (if 0.6 < p.leadStd then
          ["Bet timing is very consistent: randomize time-of-day you place bets."]
        else [])
      else [neutralMsg]) ∧
    recommendations p ≠ [] := by
  by_cases hd : 0.6 < p.clv ∨ 0.6 < p.posclv ∨ 0.6 < p.stake ∨ 0.6 < p.market ∨
      0.6 < p.book ∨ 0.6 < p.leadMean ∨ 0.6 < p.leadStd
  · rw [if_pos hd]
    have hne : recs p ≠ [] := by
      intro h0
      rw [recs] at h0
      simp only [List.append_eq_nil, ite_eq_right_iff] at h0
      rcases hd with h | h | h | h | h | h | h <;> tauto
    rw [recommendations, if_neg hne]
    exact ⟨rfl, hne⟩
  · rw [if_neg hd]
    push_neg at hd
    obtain ⟨n1, n2, n3, n4, n5, n6, n7⟩ := hd
    have hnil : recs p = [] := by
      rw [recs, if_neg (by linarith), if_neg (by linarith), if_neg (by linarith),
        if_neg (by linarith), if_neg (by linarith), if_neg (by linarith),
        if_neg (by linarith)]
      rfl
    rw [recommendations, if_pos hnil]
    exact ⟨rfl, by simp⟩

/-- Witness for C6 at the all-zero profile. -/
theorem recommendations_spec_witness :
    recommendations profileZero =
      (if 0.6 < profileZero.clv ∨ 0.6 < profileZero.posclv ∨
          0.6 < profileZero.stake ∨ 0.6 < profileZero.market ∨
          0.6 < profileZero.book ∨ 0.6 < profileZero.leadMean ∨
          0.6 < profileZero.leadStd then
        (if 0.6 < profileZero.clv then
          ["High positive CLV: mix in later bets or smaller edges to look less sharp."]
        else []) ++
        (if 0.6 < profileZero.posclv then
          ["Large share beating the close: add some neutral/coin-flip markets."]
        else []) ++
        (if 0.6 < profileZero.stake then
          ["Stake sizes too consistent: vary stakes ±10–25% around your base."]
        else []) ++
        (if 0.6 < profileZero.market then
          ["Market concentration high: add 2–3 different markets or sports weekly."]
        else []) ++
        (if 0.6 < profileZero.book then
          ["Book concentration high: spread action across additional legal books."]
        else []) ++
        (if 0.6 < profileZero.leadMean then
          ["You bet very early on average: add some closer-to-start bets."]
        else []) ++
        (if 0.6 < profileZero.leadStd then
          ["Bet timing is very consistent: randomize time-of-day you place bets."]
        else [])
      else [neutralMsg]) ∧
    recommendations profileZero ≠ [] :=
  recommendations_spec profileZero

theorem mem_eqSplit {N k : ℕ} (hk : 0 < k) {v : ℕ} :
    v ∈ eqSplit N k ↔ v < N := by
  simp [eqSplit, List.mem_flatMap, List.mem_replicate, hk.ne', List.mem_range]

theorem count_eqSplit {N k v : ℕ} (hv : v < N) :
    (eqSplit N k).count v = k := by
  rw [eqSplit, List.count_flatMap]
  induction N with
  | zero => exact absurd hv (by omega)
  | succ n ih =>
      rw [List.range_succ, List.map_append, List.sum_append]
      by_cases h : v < n
      · rw [ih h]
        have hne : n ≠ v := by omega
        simp [List.count_replicate, hne]
      · have hvn : v = n := by omega
        subst hvn
        have hzero :
            ((List.range v).map (List.count v ∘ fun i => List.replicate k i)).sum = 0 := by
          apply List.sum_eq_zero
          intro x hx
          rw [List.mem_map] at hx
          obtain ⟨i, hi, rfl⟩ := hx
          rw [List.mem_range] at hi
          have : i ≠ v := by omega
          simp [List.count_replicate, this]
        rw [hzero]
        simp

/-- A dataset in which every distinct value occurs exactly k times,
with n distinct values, has Herfindahl index 1/n. -/
theorem herfindahl_const_counts {α : Type} [DecidableEq α] (l : List α)
    (k n : ℕ) (hk : 0 < k) (hn : 0 < n)
    (hcount : ∀ v ∈ l.dedup, l.count v = k)
    (hlen : l.dedup.length = n) :
    herfindahl l = 1 / n := by
  have hk' : (k : ℚ) ≠ 0 := by positivity
  have hn' : (n : ℚ) ≠ 0 := by positivity
  simp only [herfindahl]
  set counts := l.dedup.map (fun v => (l.count v : ℚ)) with hcdef
  have hconst : ∀ x ∈ counts, x = (k : ℚ) := by
    intro x hx
    rw [hcdef, List.mem_map] at hx
    obtain ⟨v, hv, rfl⟩ := hx
    exact_mod_cast hcount v hv
  have hclen : counts.length = n := by
    rw [hcdef, List.length_map, hlen]
  have hsum : counts.sum = (n : ℚ) * k := by
    rw [List.sum_eq_card_nsmul counts (k : ℚ) hconst, hclen, nsmul_eq_mul]
  have hconst2 : ∀ x ∈ counts.map (fun c => (c / counts.sum) ^ 2),
      x = ((k : ℚ) / ((n : ℚ) * k)) ^ 2 := by
    intro x hx
    rw [List.mem_map] at hx
    obtain ⟨c, hcmem, rfl⟩ := hx
    rw [hconst c hcmem, hsum]
  rw [List.sum_eq_card_nsmul _ _ hconst2, List.length_map, hclen, nsmul_eq_mul]
  field_simp
  ring

/-- C7: the Herfindahl index of a non-empty single-category column is
1; of N equal categories of size k it is 1/N; and a missing category
value is counted as its own group rather than dropped (two records,
one missing, give index 1/2, not 1). -/
theorem herfindahl_properties :
    (∀ (α : Type) [DecidableEq α] (v : α) (k : ℕ), 0 < k →
        herfindahl (List.replicate k v) = 1) ∧
    (∀ N k : ℕ, 0 < N → 0 < k →
        herfindahl (eqSplit N k) = 1 / (N : ℚ)) ∧
    herfindahl [some ("a"), (none : Option String)] = 1 / 2 := by
  refine ⟨?_, ?_, ?_⟩
  · intro α instDec v k hk
    have h := herfindahl_const_counts (List.replicate k v) k 1 hk (by omega)
      (by
        intro w hw
        rw [List.mem_dedup, List.mem_replicate] at hw
        rw [hw.2]
        simp)
      (by rw [List.replicate_dedup hk.ne']; rfl)
    simpa using h
  · intro N k hN hk
    apply herfindahl_const_counts (eqSplit N k) k N hk hN
    · intro v hv
      rw [List.mem_dedup] at hv
      exact count_eqSplit ((mem_eqSplit hk).mp hv)
    · have h1 : (eqSplit N k).toFinset = Finset.range N := by
        ext v
        simp [List.mem_toFinset, Finset.mem_range, mem_eqSplit hk]
      have h2 := List.card_toFinset (eqSplit N k)
      rw [h1, Finset.card_range] at h2
      omega
  · simp [herfindahl, List.dedup_cons_of_not_mem, List.count_cons]
    norm_num

/-- Witness for C7: three equal records give index 1, and two
categories of three records each give index 1/2. -/
theorem herfindahl_properties_witness :
    herfindahl (List.replicate 3 ("NBA")) = 1 ∧
    herfindahl (eqSplit 2 3) = 1 / ((2 : ℕ) : ℚ) :=
  ⟨herfindahl_properties.1 String ("NBA") 3 (by norm_num),
   herfindahl_properties.2.1 2 3 (by norm_num) (by norm_num)⟩

